import Mathlib

/-!
Shallow embedding of `crates/markdown/src/parser.rs`: a normalizer turning
an underlying offset-tagged markdown event stream (produced by the external
`pulldown_cmark` tokenizer) into a flat list of `(byte-range, MarkdownEvent)`
pairs plus the set of fenced-code-block languages, with plain-text URL
autolinking (external `linkify` crate, modelled as a scanner parameter).

Byte ranges are half-open `[start, stop)` pairs of `usize` values, modelled
as `Nat × Nat`; the one place the source does arithmetic on them that can
wrap (`range.start += 1; range.end -= 1` in the inline-code arm) is modelled
with explicit wrapping modulo `2 ^ 64`.
-/

/-- Half-open byte range `start..end` into the source string (`Range<usize>`);
the first component is `start`, the second is `end`. -/
abbrev ByteRange := Nat × Nat

/-- `usize` arithmetic is modulo `2 ^ 64` (64-bit target, release-mode wrap). -/
def usizeMod : Nat := 2 ^ 64

/-- Byte-offset slicing `&text[a..b]` (`String.Pos` is a UTF-8 byte index). -/
def sliceRange (text : String) (a b : Nat) : String :=
  text.extract ⟨a⟩ ⟨b⟩

namespace pulldown_cmark

/-- `pulldown_cmark::HeadingLevel`. -/
inductive HeadingLevel
  | H1 | H2 | H3 | H4 | H5 | H6
  deriving DecidableEq

/-- `pulldown_cmark::Alignment` (table column alignment). -/
inductive Alignment
  | None | Left | Center | Right
  deriving DecidableEq

/-- `pulldown_cmark::LinkType`. -/
inductive LinkType
  | Inline | Reference | ReferenceUnknown | Collapsed | CollapsedUnknown
  | Shortcut | ShortcutUnknown | Autolink | Email
  deriving DecidableEq

/-- `pulldown_cmark::MetadataBlockKind`. -/
inductive MetadataBlockKind
  | YamlStyle | PlusesStyle
  deriving DecidableEq

/-- `pulldown_cmark::BlockQuoteKind`. -/
inductive BlockQuoteKind
  | Note | Tip | Important | Warning | Caution
  deriving DecidableEq

end pulldown_cmark

open pulldown_cmark (HeadingLevel LinkType MetadataBlockKind BlockQuoteKind)

/-- `pulldown_cmark::TagEnd`; the source re-exports it as `MarkdownTagEnd`. -/
inductive MarkdownTagEnd
  | Paragraph
  | Heading (level : HeadingLevel)
  | BlockQuote (kind : Option BlockQuoteKind)
  | CodeBlock
  | HtmlBlock
  | List (ordered : Bool)
  | Item
  | FootnoteDefinition
  | DefinitionList
  | DefinitionListTitle
  | DefinitionListDefinition
  | Table
  | TableHead
  | TableRow
  | TableCell
  | Emphasis
  | Strong
  | Strikethrough
  | Link
  | Image
  | MetadataBlock (kind : MetadataBlockKind)
  deriving DecidableEq

namespace pulldown_cmark

/-- `pulldown_cmark::CodeBlockKind` (the tokenizer-side one, with the fence
info string). -/
inductive CodeBlockKind
  | Indented
  | Fenced (info : String)
  deriving DecidableEq

/-- `pulldown_cmark::Tag`: the borrowed, tokenizer-side tag. Strings stand
for the `CowStr` payloads. -/
inductive Tag
  | Paragraph
  | Heading (level : HeadingLevel) (id : Option String) (classes : List String)
      (attrs : List (String × Option String))
  | BlockQuote (kind : Option BlockQuoteKind)
  | CodeBlock (kind : CodeBlockKind)
  | HtmlBlock
  | List (start_number : Option Nat)
  | Item
  | FootnoteDefinition (label : String)
  | DefinitionList
  | DefinitionListTitle
  | DefinitionListDefinition
  | Table (alignments : List pulldown_cmark.Alignment)
  | TableHead
  | TableRow
  | TableCell
  | Emphasis
  | Strong
  | Strikethrough
  | Link (link_type : LinkType) (dest_url : String) (title : String) (id : String)
  | Image (link_type : LinkType) (dest_url : String) (title : String) (id : String)
  | MetadataBlock (kind : MetadataBlockKind)
  deriving DecidableEq

end pulldown_cmark

/-- A `pulldown_cmark::Event::Text` payload (`CowStr`) together with the
outcome of the source's pointer-identity check `cow_str_points_inside`:
per the spec's design note (§9) the unsafe address comparison is replaced by
an explicit discriminant — `borrowed` is a genuine sub-slice of the source
at the event's range, `substituted` carries a tokenizer replacement string
(decoded HTML entity, smart punctuation). -/
inductive TextChunk
  | borrowed
  | substituted (s : String)
  deriving DecidableEq

/-- `cow_str_points_inside(&parsed, text)`: true exactly when the chunk is a
genuine sub-slice of the source buffer (modelled by the discriminant). -/
def cow_str_points_inside : TextChunk → Bool
  | .borrowed => true
  | .substituted _ => false

namespace pulldown_cmark

/-- `pulldown_cmark::Event`; payload strings of `Code`, `Html`, … are carried
but unused by the normalizer. -/
inductive Event
  | Start (tag : Tag)
  | End (tag : MarkdownTagEnd)
  | Text (parsed : TextChunk)
  | Code (code : String)
  | Html (html : String)
  | InlineHtml (html : String)
  | FootnoteReference (label : String)
  | SoftBreak
  | HardBreak
  | Rule
  | TaskListMarker (checked : Bool)
  | InlineMath (math : String)
  | DisplayMath (math : String)
  deriving DecidableEq

end pulldown_cmark

/-- The repository's owned `CodeBlockKind`. -/
inductive CodeBlockKind
  | Indented
  | Fenced (language : String)
  deriving DecidableEq

/-- The repository's owned `MarkdownTag` (static-lifetime copy of
`pulldown_cmark::Tag`). -/
inductive MarkdownTag
  | Paragraph
  | Heading (level : HeadingLevel) (id : Option String) (classes : List String)
      (attrs : List (String × Option String))
  | BlockQuote
  | CodeBlock (kind : CodeBlockKind)
  | HtmlBlock
  | List (start_number : Option Nat)
  | Item
  | FootnoteDefinition (label : String)
  | Table (alignments : List pulldown_cmark.Alignment)
  | TableHead
  | TableRow
  | TableCell
  | Emphasis
  | Strong
  | Strikethrough
  | Link (link_type : LinkType) (dest_url : String) (title : String) (id : String)
  | Image (link_type : LinkType) (dest_url : String) (title : String) (id : String)
  | MetadataBlock (kind : MetadataBlockKind)
  | DefinitionList
  | DefinitionListTitle
  | DefinitionListDefinition
  deriving DecidableEq

/-- The repository's `MarkdownEvent`. -/
inductive MarkdownEvent
  | Start (tag : MarkdownTag)
  | End (tag : MarkdownTagEnd)
  | Text
  | SubstitutedText (s : String)
  | Code
  | Html
  | InlineHtml
  | FootnoteReference
  | SoftBreak
  | HardBreak
  | Rule
  | TaskListMarker (checked : Bool)
  deriving DecidableEq

/-- `impl From<pulldown_cmark::Tag> for MarkdownTag` (the Tag Mapper):
total value-to-value conversion; `SharedString::from(x.into_string())` is
the identity on our `String` model. -/
def MarkdownTag.fromTag : pulldown_cmark.Tag → MarkdownTag
  | .Paragraph => .Paragraph
  | .Heading level id classes attrs => .Heading level id classes attrs
  | .BlockQuote _kind => .BlockQuote
  | .CodeBlock .Indented => .CodeBlock .Indented
  | .CodeBlock (.Fenced info) => .CodeBlock (.Fenced info)
  | .List start_number => .List start_number
  | .Item => .Item
  | .FootnoteDefinition label => .FootnoteDefinition label
  | .Table alignments => .Table alignments
  | .TableHead => .TableHead
  | .TableRow => .TableRow
  | .TableCell => .TableCell
  | .Emphasis => .Emphasis
  | .Strong => .Strong
  | .Strikethrough => .Strikethrough
  | .Link link_type dest_url title id => .Link link_type dest_url title id
  | .Image link_type dest_url title id => .Image link_type dest_url title id
  | .HtmlBlock => .HtmlBlock
  | .MetadataBlock kind => .MetadataBlock kind
  | .DefinitionList => .DefinitionList
  | .DefinitionListTitle => .DefinitionListTitle
  | .DefinitionListDefinition => .DefinitionListDefinition

/-- The mutable locals of `parse_markdown`'s loop, minus the output vector
(which the step function returns as an explicit emission list). -/
structure ParserState where
  within_link : Bool
  within_metadata : Bool
  substituted_text_range : ByteRange
  substituted_text_chunks : List String
  languages : Finset String
  deriving DecidableEq

/-- Initial state of the loop locals (`parse_markdown` lines 18–23). -/
def initialState : ParserState :=
  { within_link := false
    within_metadata := false
    substituted_text_range := (0, 0)
    substituted_text_chunks := []
    languages := ∅ }

/-- `flush_substituted_text` (source lines 149–162): if the pending chunk
list is non-empty, emit one `SubstitutedText` event carrying the
concatenation over the accumulated range and clear the chunks (the range
itself is not reset). -/
def flush_substituted_text (st : ParserState) :
    ParserState × List (ByteRange × MarkdownEvent) :=
  if st.substituted_text_chunks.isEmpty then (st, [])
  else
    ({ st with substituted_text_chunks := [] },
     [(st.substituted_text_range,
       .SubstitutedText (String.join st.substituted_text_chunks))])

/-- The inline-code range adjustment (source lines 127–128):
`range.start += 1; range.end -= 1` on `usize`, i.e. wrapping modulo
`2 ^ 64` (release mode; in debug mode the `-= 1` would panic on 0). -/
def code_range_adjust (range : ByteRange) : ByteRange :=
  ((range.1 + 1) % usizeMod, (range.2 + (usizeMod - 1)) % usizeMod)

/-- The autolink loop body (source lines 94–119 and 172–192): walk the
scanner matches left to right with a running cursor (the mutated
`range.start` / `text_range.start`), emitting a gap `Text` when non-empty
and then the `Start(Link{Autolink})`/`Text`/`End(Link)` triple per match;
`base` is the absolute offset of the scanned slice `src` and `links` are
the scanner's slice-relative spans. Returns the final cursor and the
emitted events; the trailing remainder `Text` is emitted by the caller. -/
def autolink_loop (src : String) (base : Nat) (cursor : Nat) :
    List (Nat × Nat) → Nat × List (ByteRange × MarkdownEvent)
  | [] => (cursor, [])
  | (a, b) :: rest =>
    let ls := base + a
    let le := base + b
    let gap := if ls > cursor then [((cursor, ls), MarkdownEvent.Text)] else []
    let (c, evs) := autolink_loop src base le rest
    (c, gap ++
      [((ls, le), .Start (.Link .Autolink (sliceRange src a b) "" "")),
       ((ls, le), MarkdownEvent.Text),
       ((ls, le), .End .Link)] ++ evs)

/-- Dispatch on the underlying event (the `match pulldown_event` at source
lines 40–143), after the metadata check and the flush-before-non-`Text`.
`finder` is the external `linkify::LinkFinder` URL scanner, a parameter of
the embedding; it receives the sliced text and returns slice-relative
spans. -/
def stepEvent (text : String) (finder : String → List (Nat × Nat))
    (st : ParserState) (range : ByteRange) :
    pulldown_cmark.Event → ParserState × List (ByteRange × MarkdownEvent)
  | .Start tag =>
    let st :=
      match tag with
      | .Link _ _ _ _ => { st with within_link := true }
      | .MetadataBlock _ => { st with within_metadata := true }
      | .CodeBlock (.Fenced language) =>
        { st with languages := insert language st.languages }
      | _ => st
    (st, [(range, .Start (MarkdownTag.fromTag tag))])
  | .End tag =>
    let st :=
      match tag with
      | .Link => { st with within_link := false }
      | _ => st
    (st, [(range, MarkdownEvent.End tag)])
  | .Text parsed =>
    match parsed with
    | .substituted s =>
      ({ st with
          substituted_text_range :=
            ((if st.substituted_text_chunks.isEmpty then range.1
              else st.substituted_text_range.1), range.2)
          substituted_text_chunks := st.substituted_text_chunks ++ [s] }, [])
    | .borrowed =>
      let (st, fl) := flush_substituted_text st
      let slice := sliceRange text range.1 range.2
      let (cursor, levs) :=
        if st.within_link then (range.1, [])
        else autolink_loop slice range.1 range.1 (finder slice)
      let post :=
        if cursor < range.2 then [((cursor, range.2), MarkdownEvent.Text)] else []
      (st, fl ++ levs ++ post)
  | .Code _ => (st, [(code_range_adjust range, MarkdownEvent.Code)])
  | .Html _ => (st, [(range, .Html)])
  | .InlineHtml _ => (st, [(range, .InlineHtml)])
  | .FootnoteReference _ => (st, [(range, .FootnoteReference)])
  | .SoftBreak => (st, [(range, .SoftBreak)])
  | .HardBreak => (st, [(range, .HardBreak)])
  | .Rule => (st, [(range, .Rule)])
  | .TaskListMarker checked => (st, [(range, .TaskListMarker checked)])
  | .InlineMath _ => (st, [])
  | .DisplayMath _ => (st, [])

/-- Whether the underlying event is `Text(_)`
(`matches!(pulldown_event, pulldown_cmark::Event::Text(_))`). -/
def pulldown_cmark.Event.isText : pulldown_cmark.Event → Bool
  | .Text _ => true
  | _ => false

/-- One iteration of `parse_markdown`'s loop (source lines 24–143): the
metadata-suppression guard first, then the flush-before-non-`Text`, then
the event dispatch. Returns the new state and the events pushed in this
iteration, in push order. -/
def step (text : String) (finder : String → List (Nat × Nat))
    (st : ParserState) (pe : ByteRange × pulldown_cmark.Event) :
    ParserState × List (ByteRange × MarkdownEvent) :=
  if st.within_metadata then
    match pe.2 with
    | .End (.MetadataBlock _) => ({ st with within_metadata := false }, [])
    | _ => (st, [])
  else
    let (st1, pre) :=
      if pe.2.isText then (st, []) else flush_substituted_text st
    let (st2, evs) := stepEvent text finder st1 pe.1 pe.2
    (st2, pre ++ evs)

/-- The whole loop: fold `step` over the underlying stream, concatenating
the per-iteration emissions in order. -/
def processStream (text : String) (finder : String → List (Nat × Nat)) :
    ParserState → List (ByteRange × pulldown_cmark.Event) →
    ParserState × List (ByteRange × MarkdownEvent)
  | st, [] => (st, [])
  | st, pe :: rest =>
    let (st1, out) := step text finder st pe
    let (st2, outs) := processStream text finder st1 rest
    (st2, out ++ outs)

/-- `parse_markdown` (source lines 17–146), with the underlying tokenizer's
offset event stream and the URL scanner as explicit parameters. Note the
source returns `(events, languages)` directly after the loop, with no final
flush of a pending substituted-text run (line 145). -/
def parse_markdown (text : String) (finder : String → List (Nat × Nat))
    (stream : List (ByteRange × pulldown_cmark.Event)) :
    List (ByteRange × MarkdownEvent) × Finset String :=
  let (st, events) := processStream text finder initialState stream
  (events, st.languages)

/-- `parse_links_only` (source lines 164–199): the autolink loop over the
whole input (`finder.links(text)` spans are absolute since the scanned
slice is the whole string), then the trailing `Text` when
`text_range.end > text_range.start`. -/
def parse_links_only (text : String) (links : List (Nat × Nat)) :
    List (ByteRange × MarkdownEvent) :=
  let (cursor, levs) := autolink_loop text 0 0 links
  levs ++
    (if text.utf8ByteSize > cursor
     then [((cursor, text.utf8ByteSize), MarkdownEvent.Text)] else [])

/-- The discriminant shared by a `Start` tag and its matching `End`: the "tag
kind" of the spec's stack-discipline invariant. -/
inductive TagKind
  | Paragraph | Heading | BlockQuote | CodeBlock | HtmlBlock | List | Item
  | FootnoteDefinition | Table | TableHead | TableRow | TableCell
  | Emphasis | Strong | Strikethrough | Link | Image | MetadataBlock
  | DefinitionList | DefinitionListTitle | DefinitionListDefinition
  deriving DecidableEq

/-- Tag kind of an owned `MarkdownTag`. -/
def MarkdownTag.toKind : MarkdownTag → TagKind
  | .Paragraph => .Paragraph
  | .Heading _ _ _ _ => .Heading
  | .BlockQuote => .BlockQuote
  | .CodeBlock _ => .CodeBlock
  | .HtmlBlock => .HtmlBlock
  | .List _ => .List
  | .Item => .Item
  | .FootnoteDefinition _ => .FootnoteDefinition
  | .Table _ => .Table
  | .TableHead => .TableHead
  | .TableRow => .TableRow
  | .TableCell => .TableCell
  | .Emphasis => .Emphasis
  | .Strong => .Strong
  | .Strikethrough => .Strikethrough
  | .Link _ _ _ _ => .Link
  | .Image _ _ _ _ => .Image
  | .MetadataBlock _ => .MetadataBlock
  | .DefinitionList => .DefinitionList
  | .DefinitionListTitle => .DefinitionListTitle
  | .DefinitionListDefinition => .DefinitionListDefinition

/-- Tag kind of a `TagEnd` (`MarkdownTagEnd`). -/
def MarkdownTagEnd.toKind : MarkdownTagEnd → TagKind
  | .Paragraph => .Paragraph
  | .Heading _ => .Heading
  | .BlockQuote _ => .BlockQuote
  | .CodeBlock => .CodeBlock
  | .HtmlBlock => .HtmlBlock
  | .List _ => .List
  | .Item => .Item
  | .FootnoteDefinition => .FootnoteDefinition
  | .DefinitionList => .DefinitionList
  | .DefinitionListTitle => .DefinitionListTitle
  | .DefinitionListDefinition => .DefinitionListDefinition
  | .Table => .Table
  | .TableHead => .TableHead
  | .TableRow => .TableRow
  | .TableCell => .TableCell
  | .Emphasis => .Emphasis
  | .Strong => .Strong
  | .Strikethrough => .Strikethrough
  | .Link => .Link
  | .Image => .Image
  | .MetadataBlock _ => .MetadataBlock

/-- Tag kind of a tokenizer-side `pulldown_cmark::Tag`. -/
def pulldown_cmark.Tag.toKind : pulldown_cmark.Tag → TagKind
  | .Paragraph => .Paragraph
  | .Heading _ _ _ _ => .Heading
  | .BlockQuote _ => .BlockQuote
  | .CodeBlock _ => .CodeBlock
  | .HtmlBlock => .HtmlBlock
  | .List _ => .List
  | .Item => .Item
  | .FootnoteDefinition _ => .FootnoteDefinition
  | .DefinitionList => .DefinitionList
  | .DefinitionListTitle => .DefinitionListTitle
  | .DefinitionListDefinition => .DefinitionListDefinition
  | .Table _ => .Table
  | .TableHead => .TableHead
  | .TableRow => .TableRow
  | .TableCell => .TableCell
  | .Emphasis => .Emphasis
  | .Strong => .Strong
  | .Strikethrough => .Strikethrough
  | .Link _ _ _ _ => .Link
  | .Image _ _ _ _ => .Image
  | .MetadataBlock _ => .MetadataBlock

/-- Stack-discipline check over an output event list: `Start` pushes its tag
kind, `End` must pop a matching kind, and the stack must be empty at the
end. `checkBalance [] evs = true` is the spec's Balance invariant. -/
def checkBalance : List TagKind → List (ByteRange × MarkdownEvent) → Bool
  | stack, [] => stack.isEmpty
  | stack, (_, .Start tag) :: rest => checkBalance (tag.toKind :: stack) rest
  | stack, (_, .End tag) :: rest =>
    match stack with
    | [] => false
    | k :: stack' => if k = tag.toKind then checkBalance stack' rest else false
  | stack, _ :: rest => checkBalance stack rest

/-- The same stack-discipline check over the underlying tokenizer stream
(the balance guarantee the external tokenizer documents). -/
def checkBalanceUnderlying :
    List TagKind → List (ByteRange × pulldown_cmark.Event) → Bool
  | stack, [] => stack.isEmpty
  | stack, (_, .Start tag) :: rest => checkBalanceUnderlying (tag.toKind :: stack) rest
  | stack, (_, .End tag) :: rest =>
    match stack with
    | [] => false
    | k :: stack' =>
      if k = tag.toKind then checkBalanceUnderlying stack' rest else false
  | stack, _ :: rest => checkBalanceUnderlying stack rest

/-- An underlying event that opens or closes an explicit link element. -/
def isLinkBoundary : pulldown_cmark.Event → Bool
  | .Start (.Link _ _ _ _) => true
  | .End .Link => true
  | _ => false

/-- An output event that starts an autolink (`Start(Link{link_type=Autolink})`). -/
def isAutolinkStart : MarkdownEvent → Bool
  | .Start (.Link .Autolink _ _ _) => true
  | _ => false

/-- An output `Code` event. -/
def isCodeEvent : MarkdownEvent → Bool
  | .Code => true
  | _ => false

/-- An underlying substituted (non-source-slice) text chunk. -/
def isSubstitutedText : pulldown_cmark.Event → Bool
  | .Text (.substituted _) => true
  | _ => false

/-- Replacement string of a substituted text chunk (`""` otherwise). -/
def substitutedString : pulldown_cmark.Event → String
  | .Text (.substituted s) => s
  | _ => ""

/-- Start offset of the first chunk of a run (`0` for an empty run). -/
def runStart (run : List (ByteRange × pulldown_cmark.Event)) : Nat :=
  (run.map fun pe => pe.1.1).headD 0

/-- End offset of the last chunk of a run (`0` for an empty run). -/
def runStop (run : List (ByteRange × pulldown_cmark.Event)) : Nat :=
  (run.map fun pe => pe.1.2).getLastD 0

/-- Replacement strings of a run of substituted chunks, in arrival order. -/
def runStrings (run : List (ByteRange × pulldown_cmark.Event)) : List String :=
  run.map fun pe => substitutedString pe.2

/-- State after running `parse_markdown`'s loop over a stream prefix. -/
def stateAfter (text : String) (finder : String → List (Nat × Nat))
    (stream : List (ByteRange × pulldown_cmark.Event)) : ParserState :=
  (processStream text finder initialState stream).1

/-- Spec-side refinement definition for claim C9, following the spec's words:
the fenced-code-block languages of the `Start(CodeBlock(Fenced(lang)))`
events that occur outside a metadata block (rule 1 suppresses everything
from `Start(MetadataBlock)` up to and including the matching
`End(MetadataBlock)`), in occurrence order. -/
def fencedLanguagesSpec :
    Bool → List (ByteRange × pulldown_cmark.Event) → List String
  | _, [] => []
  | true, (_, .End (.MetadataBlock _)) :: rest => fencedLanguagesSpec false rest
  | true, _ :: rest => fencedLanguagesSpec true rest
  | false, (_, .Start (.CodeBlock (.Fenced lang))) :: rest =>
    lang :: fencedLanguagesSpec false rest
  | false, (_, .Start (.MetadataBlock _)) :: rest => fencedLanguagesSpec true rest
  | false, _ :: rest => fencedLanguagesSpec false rest

/-- The events claim C5 ascribes to one URL match: a `Text` for the gap from
the previous match's end (or offset 0) when non-empty, then
`Start(Link{Autolink, dest_url = matched text, empty title, empty id})`, a
`Text` spanning exactly the match, and `End(Link)`. -/
def autolinkPiece (text : String) (prevEnd : Nat) (m : Nat × Nat) :
    List (ByteRange × MarkdownEvent) :=
  (if m.1 > prevEnd then [((prevEnd, m.1), MarkdownEvent.Text)] else []) ++
  [((m.1, m.2), .Start (.Link .Autolink (sliceRange text m.1 m.2) "" "")),
   ((m.1, m.2), MarkdownEvent.Text),
   ((m.1, m.2), .End .Link)]

/-- Spec-side refinement definition for claim C5, following the claim's
words: per-match pieces, each paired with the end of the previous match
(offset 0 before the first), then one `Text` for the non-empty remainder
after the last match; an input with zero matches yields a single whole-input
`Text` when the input is non-empty and nothing when it is empty. -/
def parse_links_only_spec (text : String) (links : List (Nat × Nat)) :
    List (ByteRange × MarkdownEvent) :=
  let stops := links.map fun m => m.2
  let lastEnd := stops.getLastD 0
  (((0 :: stops).zip links).flatMap fun pm => autolinkPiece text pm.1 pm.2) ++
    (if text.utf8ByteSize > lastEnd
     then [((lastEnd, text.utf8ByteSize), MarkdownEvent.Text)] else [])

/-- One diagnostic record of the Offset Verifier (source lines 67–77): the
error-level log carries the literal source slice at the event's range and
the substituted replacement text. -/
structure LogEntry where
  source : String
  parsed : String
  deriving DecidableEq

/-- `stepEvent` with the diagnostic branch included (source lines 64–77): in
the substituted-chunk arm, when the replacement is longer than 4 bytes, a
log entry is recorded; everything else is as in `stepEvent`. -/
def stepEventLogged (text : String) (finder : String → List (Nat × Nat))
    (st : ParserState) (range : ByteRange) :
    pulldown_cmark.Event →
    (ParserState × List (ByteRange × MarkdownEvent)) × List LogEntry
  | .Start tag =>
    let st :=
      match tag with
      | .Link _ _ _ _ => { st with within_link := true }
      | .MetadataBlock _ => { st with within_metadata := true }
      | .CodeBlock (.Fenced language) =>
        { st with languages := insert language st.languages }
      | _ => st
    ((st, [(range, .Start (MarkdownTag.fromTag tag))]), [])
  | .End tag =>
    let st :=
      match tag with
      | .Link => { st with within_link := false }
      | _ => st
    ((st, [(range, MarkdownEvent.End tag)]), [])
  | .Text parsed =>
    match parsed with
    | .substituted s =>
      let logs :=
        if s.utf8ByteSize > 4
        then [{ source := sliceRange text range.1 range.2, parsed := s }] else []
      (({ st with
          substituted_text_range :=
            ((if st.substituted_text_chunks.isEmpty then range.1
              else st.substituted_text_range.1), range.2)
          substituted_text_chunks := st.substituted_text_chunks ++ [s] }, []),
       logs)
    | .borrowed =>
      let (st, fl) := flush_substituted_text st
      let slice := sliceRange text range.1 range.2
      let (cursor, levs) :=
        if st.within_link then (range.1, [])
        else autolink_loop slice range.1 range.1 (finder slice)
      let post :=
        if cursor < range.2 then [((cursor, range.2), MarkdownEvent.Text)] else []
      ((st, fl ++ levs ++ post), [])
  | .Code _ => ((st, [(code_range_adjust range, MarkdownEvent.Code)]), [])
  | .Html _ => ((st, [(range, .Html)]), [])
  | .InlineHtml _ => ((st, [(range, .InlineHtml)]), [])
  | .FootnoteReference _ => ((st, [(range, .FootnoteReference)]), [])
  | .SoftBreak => ((st, [(range, .SoftBreak)]), [])
  | .HardBreak => ((st, [(range, .HardBreak)]), [])
  | .Rule => ((st, [(range, .Rule)]), [])
  | .TaskListMarker checked => ((st, [(range, .TaskListMarker checked)]), [])
  | .InlineMath _ => ((st, []), [])
  | .DisplayMath _ => ((st, []), [])

/-- `step` with the diagnostic branch included. -/
def stepLogged (text : String) (finder : String → List (Nat × Nat))
    (st : ParserState) (pe : ByteRange × pulldown_cmark.Event) :
    (ParserState × List (ByteRange × MarkdownEvent)) × List LogEntry :=
  if st.within_metadata then
    match pe.2 with
    | .End (.MetadataBlock _) => (({ st with within_metadata := false }, []), [])
    | _ => ((st, []), [])
  else
    let (st1, pre) :=
      if pe.2.isText then (st, []) else flush_substituted_text st
    let ((st2, evs), logs) := stepEventLogged text finder st1 pe.1 pe.2
    ((st2, pre ++ evs), logs)

/-- The loop with the diagnostic branch included, collecting log entries. -/
def processStreamLogged (text : String) (finder : String → List (Nat × Nat)) :
    ParserState → List (ByteRange × pulldown_cmark.Event) →
    (ParserState × List (ByteRange × MarkdownEvent)) × List LogEntry
  | st, [] => ((st, []), [])
  | st, pe :: rest =>
    let ((st1, out), logs1) := stepLogged text finder st pe
    let ((st2, outs), logs2) := processStreamLogged text finder st1 rest
    ((st2, out ++ outs), logs1 ++ logs2)

/-- `parse_markdown` with the Offset Verifier's diagnostic branch included:
the returned value together with the emitted log entries. -/
def parse_markdown_logged (text : String) (finder : String → List (Nat × Nat))
    (stream : List (ByteRange × pulldown_cmark.Event)) :
    (List (ByteRange × MarkdownEvent) × Finset String) × List LogEntry :=
  let ((st, events), logs) := processStreamLogged text finder initialState stream
  ((events, st.languages), logs)

/-- A scanner that finds no URL anywhere (its result is irrelevant to the
inputs below, which never reach the scanner). -/
def emptyFinder : String → List (Nat × Nat) := fun _ => []

/-- Underlying stream of the pluses-delimited metadata document
`"+++\na: 1\n+++"`: the tokenizer emits `Start(MetadataBlock)`, the interior
text, and the matching `End(MetadataBlock)`. -/
def metadataStream : List (ByteRange × pulldown_cmark.Event) :=
  [((0, 12), .Start (.MetadataBlock .PlusesStyle)),
   ((4, 9), .Text .borrowed),
   ((0, 12), .End (.MetadataBlock .PlusesStyle))]

/-- C1: the claim says a metadata block contributes zero output events,
the `Start`/`End` pair included. The code violates this: the `Start` arm
(source lines 41–53) sets `within_metadata` but still pushes the
`Start(MetadataBlock)` event, so on `"+++\na: 1\n+++"` the output contains
exactly that `Start` event (interior and `End` are suppressed). -/
theorem metadata_start_event_emitted :
    parse_markdown "+++\na: 1\n+++" emptyFinder metadataStream
      = ([((0, 12), .Start (.MetadataBlock .PlusesStyle))], ∅) := by
  decide

/-- C2: the claim says the output event list always has balanced,
stack-disciplined `Start`/`End` pairs. The code violates this: on the
balanced underlying stream of `"+++\na: 1\n+++"` it emits
`Start(MetadataBlock)` without its `End`, so the output fails the stack
check while the underlying stream passes it. -/
theorem metadata_block_breaks_balance :
    checkBalanceUnderlying [] metadataStream = true ∧
    checkBalance []
      (parse_markdown "+++\na: 1\n+++" emptyFinder metadataStream).1 = false := by
  constructor <;> decide

/-- C4: the claim says a pending substituted-text run is flushed at end of
stream. The code violates this: `parse_markdown` returns right after the
loop (source line 145) without a final `flush_substituted_text`, so a
stream ending in a substituted chunk yields no `SubstitutedText` event even
though the chunk was accumulated. -/
theorem trailing_substituted_run_dropped :
    parse_markdown "--" emptyFinder [((0, 2), .Text (.substituted "–"))]
      = ([], ∅) ∧
    (processStream "--" emptyFinder initialState
        [((0, 2), .Text (.substituted "–"))]).1.substituted_text_chunks
      = ["–"] := by
  constructor <;> decide

/-- Shared arithmetic fact: when the underlying range spans at least the two
delimiter bytes and its end is a valid `usize`, the wrapping adjustment
computes the plain `[s+1, e-1)`. -/
lemma code_range_adjust_eq (s e : Nat) (h1 : s + 2 ≤ e) (h2 : e < usizeMod) :
    code_range_adjust (s, e) = (s + 1, e - 1) := by
  have hM : (1 : Nat) < usizeMod := by norm_num [usizeMod]
  have hs1 : s + 1 < usizeMod := by omega
  have he1 : e - 1 < usizeMod := by omega
  have hrw : e + (usizeMod - 1) = (e - 1) + 1 * usizeMod := by omega
  simp only [code_range_adjust, hrw, Nat.add_mul_mod_self_right,
    Nat.mod_eq_of_lt hs1, Nat.mod_eq_of_lt he1]

/-- C10: under the precondition that the underlying inline-code range spans
at least the two delimiter bytes (`s + 2 ≤ e`, with `e` a valid `usize`),
the Code-event adjustment `start += 1; end -= 1` does not wrap and yields
the well-formed range `[s+1, e-1)`; without the precondition the
subtraction wraps (at range `0..0` the adjusted end is `2^64 - 1`). -/
theorem code_range_adjust_no_wrap (s e : Nat) (h1 : s + 2 ≤ e)
    (h2 : e < usizeMod) :
    code_range_adjust (s, e) = (s + 1, e - 1) ∧ s + 1 ≤ e - 1 ∧
    code_range_adjust (0, 0) = (1, usizeMod - 1) := by
  have hM : (1 : Nat) < usizeMod := by norm_num [usizeMod]
  refine ⟨code_range_adjust_eq s e h1 h2, by omega, ?_⟩
  have h0 : (0 + 1) % usizeMod = 1 := Nat.mod_eq_of_lt (by omega)
  have h1' : (0 + (usizeMod - 1)) % usizeMod = usizeMod - 1 :=
    Nat.mod_eq_of_lt (by omega)
  simp only [code_range_adjust, h0, h1']

/-- Witness for C10 at the minimal code span `0..2` (the empty inline code
written with one delimiter byte on each side). -/
theorem code_range_adjust_no_wrap_witness :
    0 + 2 ≤ 2 ∧ 2 < usizeMod ∧
    (code_range_adjust (0, 2) = (0 + 1, 2 - 1) ∧ 0 + 1 ≤ 2 - 1 ∧
      code_range_adjust (0, 0) = (1, usizeMod - 1)) :=
  ⟨by omega, by norm_num [usizeMod],
   code_range_adjust_no_wrap 0 2 (by omega) (by norm_num [usizeMod])⟩

/-- The running-cursor autolink loop over absolute spans (base offset 0)
computes the gap/match pieces of `autolinkPiece`, each paired with the
previous match's end, and stops at the last match's end. -/
lemma autolink_loop_spec (text : String) (links : List (Nat × Nat)) :
    ∀ c : Nat,
    autolink_loop text 0 c links
      = ((links.map fun m => m.2).getLastD c,
         ((c :: links.map fun m => m.2).zip links).flatMap
           fun pm => autolinkPiece text pm.1 pm.2) := by
  induction links with
  | nil => intro c; simp [autolink_loop]
  | cons m rest ih =>
    intro c
    obtain ⟨a, b⟩ := m
    simp only [autolink_loop, Nat.zero_add, ih b, List.map_cons,
      List.zip_cons_cons, List.flatMap_cons, List.getLastD_cons,
      autolinkPiece, List.append_assoc]

/-- C5: `parse_links_only` emits, for each URL match left to right, the gap
`Text` (when non-empty), the `Start(Link{Autolink, dest_url = matched
text, empty title, empty id})` / `Text` / `End(Link)` triple, and after the
last match one `Text` for the non-empty remainder; zero matches yield one
whole-input `Text` when the input is non-empty and nothing when it is
empty. -/
theorem parse_links_only_correct (text : String) (links : List (Nat × Nat)) :
    parse_links_only text links = parse_links_only_spec text links := by
  simp only [parse_links_only, parse_links_only_spec, autolink_loop_spec]

/-- C6: processing an underlying inline-code event with range `[s, e)`
(outside a metadata block, with the range spanning at least the two
delimiter bytes) pushes, after the pending-run flush, exactly one `Code`
event, with range `[s+1, e-1)`. -/
theorem code_event_emits_once (text : String)
    (finder : String → List (Nat × Nat)) (st : ParserState) (s e : Nat)
    (c : String) (hmeta : st.within_metadata = false) (hlen : s + 2 ≤ e)
    (husize : e < usizeMod) :
    (step text finder st ((s, e), .Code c)).2
      = (flush_substituted_text st).2 ++ [((s + 1, e - 1), MarkdownEvent.Code)] ∧
    ((step text finder st ((s, e), .Code c)).2.countP
        fun ev => isCodeEvent ev.2) = 1 := by
  have hadj := code_range_adjust_eq s e hlen husize
  by_cases hch : st.substituted_text_chunks.isEmpty <;>
    simp [step, hmeta, pulldown_cmark.Event.isText, stepEvent,
      flush_substituted_text, hch, hadj, isCodeEvent]

/-- Witness for C6: the inline code span `0..6` (for example `` `code` ``)
emits exactly the `Code` event over `1..5` from the initial state. -/
theorem code_event_emits_once_witness :
    initialState.within_metadata = false ∧ 0 + 2 ≤ 6 ∧ 6 < usizeMod ∧
    ((step "`code`" emptyFinder initialState ((0, 6), .Code "code")).2
        = (flush_substituted_text initialState).2 ++
            [((0 + 1, 6 - 1), MarkdownEvent.Code)] ∧
      ((step "`code`" emptyFinder initialState ((0, 6), .Code "code")).2.countP
          fun ev => isCodeEvent ev.2) = 1) :=
  ⟨rfl, by omega, by norm_num [usizeMod],
   code_event_emits_once "`code`" emptyFinder initialState 0 6 "code" rfl
     (by omega) (by norm_num [usizeMod])⟩

/-- One loop iteration with the diagnostic branch computes the same state
and emission as the iteration without it. -/
lemma stepLogged_fst (text : String) (finder : String → List (Nat × Nat))
    (st : ParserState) (pe : ByteRange × pulldown_cmark.Event) :
    (stepLogged text finder st pe).1 = step text finder st pe := by
  obtain ⟨range, ev⟩ := pe
  by_cases hmeta : st.within_metadata <;>
    cases ev <;>
    simp [stepLogged, step, stepEventLogged, stepEvent, hmeta] <;>
    (try split <;> simp)

/-- The whole loop with the diagnostic branch computes the same state and
emission as the loop without it. -/
lemma processStreamLogged_fst (text : String)
    (finder : String → List (Nat × Nat)) :
    ∀ (stream : List (ByteRange × pulldown_cmark.Event)) (st : ParserState),
    (processStreamLogged text finder st stream).1
      = processStream text finder st stream := by
  intro stream
  induction stream with
  | nil => intro st; rfl
  | cons pe rest ih =>
    intro st
    rcases h : stepLogged text finder st pe with ⟨⟨st1, out⟩, logs1⟩
    have h' : step text finder st pe = (st1, out) := by
      rw [← stepLogged_fst text finder st pe, h]
    rcases h2 : processStreamLogged text finder st1 rest with ⟨⟨st2, outs⟩, logs2⟩
    have h2' : processStream text finder st1 rest = (st2, outs) := by
      rw [← ih st1, h2]
    simp [processStreamLogged, processStream, h, h', h2, h2']

/-- C8: the Offset Verifier's diagnostic branch (the error log for
substitution chunks longer than 4 bytes) never alters the returned event
list or language set: `parse_markdown` with the branch included returns
exactly what the computation without it returns, on every input (and, both
being total functions, the long-chunk case never aborts parsing). -/
theorem diagnostic_log_does_not_affect_output (text : String)
    (finder : String → List (Nat × Nat))
    (stream : List (ByteRange × pulldown_cmark.Event)) :
    (parse_markdown_logged text finder stream).1
      = parse_markdown text finder stream := by
  rcases h : processStreamLogged text finder initialState stream
    with ⟨⟨st, evs⟩, logs⟩
  have h' : processStream text finder initialState stream = (st, evs) := by
    rw [← processStreamLogged_fst text finder stream initialState, h]
  simp [parse_markdown_logged, parse_markdown, h, h']

/-- `flush_substituted_text` as an explicit pair: the state always comes out
with the chunk list cleared (clearing an empty list is the identity), and
the emission is the single coalesced `SubstitutedText` event when the run
was non-empty. -/
lemma flush_substituted_text_eq (st : ParserState) :
    flush_substituted_text st
      = ({ st with substituted_text_chunks := [] },
         if st.substituted_text_chunks.isEmpty then []
         else [(st.substituted_text_range,
                .SubstitutedText (String.join st.substituted_text_chunks))]) := by
  simp only [flush_substituted_text]
  split
  · next h =>
    have h' : st.substituted_text_chunks = [] := by
      simpa [List.isEmpty_iff] using h
    cases st
    simp_all
  · next h => simp [h]

/-- Unfolding one iteration of the loop. -/
lemma processStream_cons (text : String) (finder : String → List (Nat × Nat))
    (st : ParserState) (pe : ByteRange × pulldown_cmark.Event)
    (rest : List (ByteRange × pulldown_cmark.Event)) :
    processStream text finder st (pe :: rest)
      = ((processStream text finder (step text finder st pe).1 rest).1,
         (step text finder st pe).2 ++
           (processStream text finder (step text finder st pe).1 rest).2) := by
  rcases h : step text finder st pe with ⟨st1, out⟩
  rcases h2 : processStream text finder st1 rest with ⟨st2, outs⟩
  simp [processStream, h, h2]

/-- The loop over a concatenation: states thread through, emissions append. -/
lemma processStream_append (text : String)
    (finder : String → List (Nat × Nat)) :
    ∀ (xs ys : List (ByteRange × pulldown_cmark.Event)) (st : ParserState),
    processStream text finder st (xs ++ ys)
      = ((processStream text finder (processStream text finder st xs).1 ys).1,
         (processStream text finder st xs).2 ++
           (processStream text finder (processStream text finder st xs).1 ys).2) := by
  intro xs
  induction xs with
  | nil => intro ys st; simp [processStream]
  | cons pe rest ih =>
    intro ys st
    simp only [List.cons_append, processStream_cons, ih, List.append_assoc]

/-- Language-set invariant of the loop: the final language set is the
starting one united with the fenced languages that the spec ascribes to the
remaining stream (given the current metadata flag). -/
lemma processStream_languages (text : String)
    (finder : String → List (Nat × Nat)) :
    ∀ (stream : List (ByteRange × pulldown_cmark.Event)) (st : ParserState),
    (processStream text finder st stream).1.languages
      = st.languages ∪ (fencedLanguagesSpec st.within_metadata stream).toFinset := by
  intro stream
  induction stream with
  | nil => intro st; simp [processStream, fencedLanguagesSpec]
  | cons pe rest ih =>
    intro st
    obtain ⟨range, ev⟩ := pe
    rw [processStream_cons, ih]
    by_cases hmeta : st.within_metadata
    · cases ev <;>
        simp [step, hmeta, fencedLanguagesSpec] <;>
        (rename_i tag; cases tag <;> simp [fencedLanguagesSpec, hmeta])
    · cases ev with
      | Start tag =>
        cases tag with
        | CodeBlock kind =>
          cases kind <;>
            simp [step, hmeta, pulldown_cmark.Event.isText, stepEvent,
              flush_substituted_text_eq, fencedLanguagesSpec,
              Finset.insert_union, Finset.union_insert]
        | _ =>
          simp [step, hmeta, pulldown_cmark.Event.isText, stepEvent,
            flush_substituted_text_eq, fencedLanguagesSpec]
      | End tag =>
        cases tag <;>
          simp [step, hmeta, pulldown_cmark.Event.isText, stepEvent,
            flush_substituted_text_eq, fencedLanguagesSpec]
      | Text chunk =>
        cases chunk <;>
          simp [step, hmeta, pulldown_cmark.Event.isText, stepEvent,
            flush_substituted_text_eq, fencedLanguagesSpec]
      | _ =>
        simp [step, hmeta, pulldown_cmark.Event.isText, stepEvent,
          flush_substituted_text_eq, fencedLanguagesSpec]

/-- C9: the language set returned by `parse_markdown` contains a string
exactly when some `Start(CodeBlock(Fenced(lang)))` underlying event occurs
outside a metadata block (including the empty language); membership in a
`Finset` gives each language exactly once. -/
theorem languages_mem_iff (text : String)
    (finder : String → List (Nat × Nat))
    (stream : List (ByteRange × pulldown_cmark.Event)) (lang : String) :
    lang ∈ (parse_markdown text finder stream).2 ↔
      lang ∈ fencedLanguagesSpec false stream := by
  show lang ∈ (processStream text finder initialState stream).1.languages ↔ _
  rw [processStream_languages]
  simp [initialState]

/-- The pending-run flush only ever emits `SubstitutedText`, never an
autolink `Start`. -/
lemma flush_substituted_text_no_autolink (st : ParserState) :
    ∀ ev ∈ (flush_substituted_text st).2, isAutolinkStart ev.2 = false := by
  simp only [flush_substituted_text_eq]
  split <;> simp [isAutolinkStart]

/-- While `within_link` is set, one loop iteration on any event that is
neither `Start(Link)` nor `End(Link)` keeps `within_link` set and emits no
autolink `Start`: the autolink scanner branch is skipped and every other
arm emits only non-link events (the `Start` arm maps a non-`Link` tag to a
non-`Link` tag). -/
lemma step_within_link_no_autolink (text : String)
    (finder : String → List (Nat × Nat)) (st : ParserState)
    (pe : ByteRange × pulldown_cmark.Event)
    (hlink : st.within_link = true) (hpe : isLinkBoundary pe.2 = false) :
    (step text finder st pe).1.within_link = true ∧
    ∀ ev ∈ (step text finder st pe).2, isAutolinkStart ev.2 = false := by
  obtain ⟨range, ev⟩ := pe
  by_cases hmeta : st.within_metadata
  · cases ev <;>
      simp [step, hmeta, hlink, isAutolinkStart] <;>
      (rename_i tag; cases tag <;> simp [hlink])
  · by_cases hch : st.substituted_text_chunks.isEmpty <;>
      cases ev with
      | Start tag =>
        cases tag with
        | CodeBlock kind =>
          cases kind <;>
            simp_all [step, hmeta, pulldown_cmark.Event.isText, stepEvent,
              flush_substituted_text_eq, hch, isAutolinkStart,
              MarkdownTag.fromTag]
        | _ =>
          simp_all [step, hmeta, pulldown_cmark.Event.isText, stepEvent,
            flush_substituted_text_eq, hch, isAutolinkStart,
            MarkdownTag.fromTag, isLinkBoundary]
      | End tag =>
        cases tag <;>
          simp_all [step, hmeta, pulldown_cmark.Event.isText, stepEvent,
            flush_substituted_text_eq, hch, isAutolinkStart, isLinkBoundary]
      | Text chunk =>
        cases chunk <;>
          simp_all [step, hmeta, pulldown_cmark.Event.isText, stepEvent,
            flush_substituted_text_eq, hch, isAutolinkStart]
      | _ =>
        simp_all [step, hmeta, pulldown_cmark.Event.isText, stepEvent,
          flush_substituted_text_eq, hch, isAutolinkStart]

/-- While `within_link` is set, processing any stream segment free of link
boundaries keeps it set and emits no autolink `Start`. -/
lemma processStream_within_link_no_autolink (text : String)
    (finder : String → List (Nat × Nat)) :
    ∀ (b : List (ByteRange × pulldown_cmark.Event)) (st : ParserState),
    st.within_link = true → (∀ pe ∈ b, isLinkBoundary pe.2 = false) →
    (processStream text finder st b).1.within_link = true ∧
    ∀ ev ∈ (processStream text finder st b).2, isAutolinkStart ev.2 = false := by
  intro b
  induction b with
  | nil => intro st h _; exact ⟨h, by simp [processStream]⟩
  | cons pe rest ih =>
    intro st hlink hb
    have hstep := step_within_link_no_autolink text finder st pe hlink
      (hb pe (by simp))
    have hrest := ih _ hstep.1 fun q hq => hb q (by simp [hq])
    rw [processStream_cons]
    refine ⟨hrest.1, ?_⟩
    intro ev hev
    rcases List.mem_append.mp hev with h1 | h1
    · exact hstep.2 ev h1
    · exact hrest.2 ev h1

/-- C3 (amended): no autolink `Start(Link{Autolink})` is emitted while
processing events strictly between a `Start(Link)` underlying event
(encountered outside a metadata block) and its matching `End(Link)` — `b`
is the interior, so it contains no link boundary (markdown links do not
nest). The suppression does not extend to `Image` elements, see the
counterexample. -/
theorem no_autolink_inside_explicit_link (text : String)
    (finder : String → List (Nat × Nat))
    (a : List (ByteRange × pulldown_cmark.Event)) (r : ByteRange)
    (lt : LinkType) (u ti idt : String)
    (b : List (ByteRange × pulldown_cmark.Event))
    (hmeta : (stateAfter text finder a).within_metadata = false)
    (hb : ∀ pe ∈ b, isLinkBoundary pe.2 = false) :
    ∀ ev ∈ (processStream text finder
        (stateAfter text finder (a ++ [(r, .Start (.Link lt u ti idt))])) b).2,
      isAutolinkStart ev.2 = false := by
  have hmeta' :
      (processStream text finder initialState a).1.within_metadata = false :=
    hmeta
  have hst : (stateAfter text finder
      (a ++ [(r, .Start (.Link lt u ti idt))])).within_link = true := by
    simp [stateAfter, processStream_append, processStream_cons, processStream,
      step, hmeta', pulldown_cmark.Event.isText, stepEvent,
      flush_substituted_text_eq]
  exact (processStream_within_link_no_autolink text finder b _ hst hb).2

/-- The URL scanner's behaviour on the slice `"https://a.b"` (what `linkify`
returns there: the whole slice is one URL match). -/
def urlFinder : String → List (Nat × Nat) :=
  fun s => if s = "https://a.b" then [(0, 11)] else []

/-- Witness for C3 (amended): a borrowed text chunk whose slice is a URL
the scanner would match, processed right after `Start(Link)`, yields no
autolink `Start`. -/
theorem no_autolink_inside_explicit_link_witness :
    (stateAfter "https://a.b" urlFinder []).within_metadata = false ∧
    (∀ pe ∈ [((0, 11), pulldown_cmark.Event.Text .borrowed)],
      isLinkBoundary pe.2 = false) ∧
    ∀ ev ∈ (processStream "https://a.b" urlFinder
        (stateAfter "https://a.b" urlFinder
          ([] ++ [((0, 11), .Start (.Link .Inline "u" "" ""))]))
        [((0, 11), pulldown_cmark.Event.Text .borrowed)]).2,
      isAutolinkStart ev.2 = false :=
  ⟨by decide, by decide,
   no_autolink_inside_explicit_link "https://a.b" urlFinder [] (0, 11)
     .Inline "u" "" "" [((0, 11), pulldown_cmark.Event.Text .borrowed)]
     (by decide) (by decide)⟩

/-- Underlying stream of `"![https://a.b](i.png)"`: an image whose alt text
is a bare URL (`Start(Image)`, the borrowed alt text at bytes `2..13`,
`End(Image)`). -/
def imageStream : List (ByteRange × pulldown_cmark.Event) :=
  [((0, 21), .Start (.Image .Inline "i.png" "" "")),
   ((2, 13), .Text .borrowed),
   ((0, 21), .End .Image)]

/-- C3 counterexample: the claim also forbids autolinking between
`Start(Image)` and its matching `End`, but only `Link` sets `within_link`
(source line 43); on `"![https://a.b](i.png)"` the alt text is scanned and
a `Start(Link{Autolink})` is emitted strictly inside the `Image` element
(output position 1, between the `Start(Image)` at position 0 and the
`End(Image)` at position 4). -/
theorem autolink_emitted_inside_image :
    (parse_markdown "![https://a.b](i.png)" urlFinder imageStream).1
      = [((0, 21), .Start (.Image .Inline "i.png" "" "")),
         ((2, 13), .Start (.Link .Autolink "https://a.b" "" "")),
         ((2, 13), MarkdownEvent.Text),
         ((2, 13), .End .Link),
         ((0, 21), .End .Image)] := by
  decide

/-- When a pending run is non-empty (outside a metadata block) and the next
event is not a substituted chunk, the iteration emits the coalesced
`SubstitutedText` event first — equivalently, the iteration behaves like
the same iteration started from the cleared state, with that event
prepended. -/
lemma step_flush_extract (text : String) (finder : String → List (Nat × Nat))
    (st : ParserState) (pe : ByteRange × pulldown_cmark.Event)
    (hch : st.substituted_text_chunks ≠ [])
    (hmeta : st.within_metadata = false)
    (hpe : isSubstitutedText pe.2 = false) :
    step text finder st pe
      = ((step text finder { st with substituted_text_chunks := [] } pe).1,
         (st.substituted_text_range,
           .SubstitutedText (String.join st.substituted_text_chunks))
           :: (step text finder
                { st with substituted_text_chunks := [] } pe).2) := by
  obtain ⟨range, ev⟩ := pe
  have hch' : st.substituted_text_chunks.isEmpty = false := by
    simpa [List.isEmpty_iff] using hch
  cases ev with
  | Text chunk =>
    cases chunk <;>
      simp_all [step, hmeta, pulldown_cmark.Event.isText, stepEvent,
        flush_substituted_text_eq, hch', isSubstitutedText]
  | _ =>
    simp_all [step, hmeta, pulldown_cmark.Event.isText, stepEvent,
      flush_substituted_text_eq, hch', isSubstitutedText]

/-- Loop-level version of `step_flush_extract`. -/
lemma processStream_flush_extract (text : String)
    (finder : String → List (Nat × Nat)) (st : ParserState)
    (pe : ByteRange × pulldown_cmark.Event)
    (rest : List (ByteRange × pulldown_cmark.Event))
    (hch : st.substituted_text_chunks ≠ [])
    (hmeta : st.within_metadata = false)
    (hpe : isSubstitutedText pe.2 = false) :
    processStream text finder st (pe :: rest)
      = ((processStream text finder
            { st with substituted_text_chunks := [] } (pe :: rest)).1,
         (st.substituted_text_range,
           .SubstitutedText (String.join st.substituted_text_chunks))
           :: (processStream text finder
                { st with substituted_text_chunks := [] } (pe :: rest)).2) := by
  rw [processStream_cons, processStream_cons,
    step_flush_extract text finder st pe hch hmeta hpe]
  simp


/-- A substituted chunk is a `Text` event carrying a `substituted` payload. -/
lemma isSubstitutedText_eq (ev : pulldown_cmark.Event)
    (h : isSubstitutedText ev = true) :
    ∃ c, ev = .Text (.substituted c) := by
  cases ev with
  | Text chunk =>
    cases chunk with
    | borrowed => simp [isSubstitutedText] at h
    | substituted c => exact ⟨c, rfl⟩
  | _ => simp [isSubstitutedText] at h

/-- The state after a maximal substituted run is absorbed and flushed: the
recorded range goes from the run's first chunk start (when nothing was
already pending — the maximal-run case) to the run's last chunk end, and
the chunk list is cleared. -/
def runFlushState (st : ParserState)
    (run : List (ByteRange × pulldown_cmark.Event)) : ParserState :=
  { st with
      substituted_text_range :=
        ((if st.substituted_text_chunks.isEmpty then runStart run
          else st.substituted_text_range.1), runStop run)
      substituted_text_chunks := [] }

/-- The single `SubstitutedText` event emitted for an absorbed run: its
payload is the concatenation of the pending chunks extended with the run's
replacement strings in arrival order, over the accumulated range. -/
def runFlushEvent (st : ParserState)
    (run : List (ByteRange × pulldown_cmark.Event)) :
    ByteRange × MarkdownEvent :=
  (((if st.substituted_text_chunks.isEmpty then runStart run
     else st.substituted_text_range.1), runStop run),
   MarkdownEvent.SubstitutedText
     (String.join (st.substituted_text_chunks ++ runStrings run)))

/-- Accumulation invariant: outside a metadata block, a non-empty run of
consecutive substituted chunks followed by a non-substituted event emits
exactly the one coalesced `SubstitutedText` event of `runFlushEvent`,
placed before everything the rest of the stream emits, and the loop
continues from the cleared `runFlushState`. -/
lemma processStream_substituted_run (text : String)
    (finder : String → List (Nat × Nat)) :
    ∀ (run : List (ByteRange × pulldown_cmark.Event)) (st : ParserState)
      (term : ByteRange × pulldown_cmark.Event)
      (rest : List (ByteRange × pulldown_cmark.Event)),
    st.within_metadata = false → run ≠ [] →
    (∀ pe ∈ run, isSubstitutedText pe.2 = true) →
    isSubstitutedText term.2 = false →
    processStream text finder st (run ++ term :: rest)
      = ((processStream text finder (runFlushState st run) (term :: rest)).1,
         runFlushEvent st run
           :: (processStream text finder (runFlushState st run)
                (term :: rest)).2) := by
  intro run
  induction run with
  | nil => intro st term rest _ hne _ _; exact absurd rfl hne
  | cons pe tl ih =>
    intro st term rest hmeta hne hrun hterm
    obtain ⟨r0, ev0⟩ := pe
    obtain ⟨c, rfl⟩ :=
      isSubstitutedText_eq ev0 (hrun (r0, ev0) (by simp))
    have hstep : step text finder st (r0, .Text (.substituted c))
        = ({ st with
              substituted_text_range :=
                ((if st.substituted_text_chunks.isEmpty then r0.1
                  else st.substituted_text_range.1), r0.2)
              substituted_text_chunks := st.substituted_text_chunks ++ [c] },
           []) := by
      simp [step, hmeta, pulldown_cmark.Event.isText, stepEvent]
    cases tl with
    | nil =>
      rw [List.cons_append, List.nil_append, processStream_cons, hstep]
      rw [processStream_flush_extract text finder _ term rest (by simp)
        (by simp [hmeta]) hterm]
      simp [runFlushState, runFlushEvent, runStart, runStop, runStrings,
        substitutedString]
    | cons pe1 tl1 =>
      rw [List.cons_append, processStream_cons, hstep]
      rw [ih _ term rest (by simp [hmeta]) (by simp)
        (fun q hq => hrun q (by simp [hq])) hterm]
      simp only [List.nil_append, Prod.fst]
      have hne' : (st.substituted_text_chunks ++ [c]).isEmpty = false := by
        simp
      simp [runFlushState, runFlushEvent, runStart, runStop, runStrings,
        substitutedString, hne', List.getLastD_cons]

/-- C7: for a maximal run of consecutive substituted chunks (nothing pending
before it, a non-substituted event after it) encountered outside a metadata
block, `parse_markdown`'s loop emits exactly one `SubstitutedText` event —
payload the concatenation of the chunks' replacement strings in arrival
order, range from the first chunk's start to the last chunk's end — before
any output of the following events, and continues with the run state
cleared. -/
theorem substituted_run_coalesced (text : String)
    (finder : String → List (Nat × Nat)) (st : ParserState)
    (run : List (ByteRange × pulldown_cmark.Event))
    (term : ByteRange × pulldown_cmark.Event)
    (rest : List (ByteRange × pulldown_cmark.Event))
    (hmeta : st.within_metadata = false)
    (hempty : st.substituted_text_chunks = [])
    (hne : run ≠ [])
    (hrun : ∀ pe ∈ run, isSubstitutedText pe.2 = true)
    (hterm : isSubstitutedText term.2 = false) :
    processStream text finder st (run ++ term :: rest)
      = ((processStream text finder
            { st with
                substituted_text_range := (runStart run, runStop run)
                substituted_text_chunks := [] } (term :: rest)).1,
         ((runStart run, runStop run),
           MarkdownEvent.SubstitutedText (String.join (runStrings run)))
           :: (processStream text finder
                { st with
                    substituted_text_range := (runStart run, runStop run)
                    substituted_text_chunks := [] } (term :: rest)).2) := by
  rw [processStream_substituted_run text finder run st term rest hmeta hne
    hrun hterm]
  simp [runFlushState, runFlushEvent, hempty]

/-- The underlying substituted chunks of `"--..."` under smart punctuation:
`--` becomes an en dash over `0..2` and `...` an ellipsis over `2..5`. -/
def substRun : List (ByteRange × pulldown_cmark.Event) :=
  [((0, 2), .Text (.substituted "–")), ((2, 5), .Text (.substituted "…"))]

/-- Witness for C7: the two-chunk run of `"--..."` followed by a soft break
emits the single coalesced `SubstitutedText("–…")` over `0..5`. -/
theorem substituted_run_coalesced_witness :
    initialState.within_metadata = false ∧
    initialState.substituted_text_chunks = [] ∧
    substRun ≠ [] ∧
    (∀ pe ∈ substRun, isSubstitutedText pe.2 = true) ∧
    isSubstitutedText ((5, 5), pulldown_cmark.Event.SoftBreak).2 = false ∧
    processStream "--..." emptyFinder initialState
        (substRun ++ ((5, 5), pulldown_cmark.Event.SoftBreak) :: [])
      = ((processStream "--..." emptyFinder
            { initialState with
                substituted_text_range := (runStart substRun, runStop substRun)
                substituted_text_chunks := [] }
            (((5, 5), pulldown_cmark.Event.SoftBreak) :: [])).1,
         ((runStart substRun, runStop substRun),
           MarkdownEvent.SubstitutedText (String.join (runStrings substRun)))
           :: (processStream "--..." emptyFinder
                { initialState with
                    substituted_text_range := (runStart substRun, runStop substRun)
                    substituted_text_chunks := [] }
                (((5, 5), pulldown_cmark.Event.SoftBreak) :: [])).2) :=
  ⟨rfl, rfl, by decide, by decide, by decide,
   substituted_run_coalesced "--..." emptyFinder initialState substRun
     ((5, 5), pulldown_cmark.Event.SoftBreak) [] rfl rfl (by decide)
     (by decide) (by decide)⟩
